import Mathlib

/-!
Verification of the `linedb` line-record store (package `linedb`,
file `linedb.go`) against its natural-language specification.

The embedding models file contents and record texts as `List Char`
(Go strings / byte buffers), the codec `strings.Split` / `strings.Join`
on the single separator character as recursive list functions, and the
`Database` handle together with its single backing file as one state
record.  Whole-file writes may fail; the flag `wOk` passed to each
mutating operation tells whether a write attempted during that call
succeeds.  A successful write is counted in `writes`, so "no write was
attempted" is observable in the state.  Go run-time panics (slice index
out of range) are modelled by `Option`: an operation returns `none`
exactly when the corresponding Go code would panic.
-/

namespace LineDB

/-- File contents and record texts, as in Go: a sequence of characters. -/
abbrev Bytes := List Char

/-- The record separator character, `'\n'` in the source. -/
def sep : Char := '\n'

/-- Go `strings.Join(records, "\n")`: records joined by the separator. -/
def encode : List Bytes → Bytes
  | [] => []
  | [r] => r
  | r :: rs => r ++ sep :: encode rs

/-- Go `strings.Split(buf, "\n")` for a one-character separator:
splits around every occurrence of `sep`; the empty input gives one
empty part. -/
def splitSep : Bytes → List Bytes
  | [] => [[]]
  | c :: rest =>
    if c = sep then [] :: splitSep rest
    else
      match splitSep rest with
      | [] => [[c]]
      | r :: rs => (c :: r) :: rs

/-- `loadFromFile` after a successful read: a zero-length buffer decodes
to zero records, anything else is split on the separator. -/
def decode (buf : Bytes) : List Bytes :=
  if buf = [] then [] else splitSep buf

theorem splitSep_ne_nil (s : Bytes) : splitSep s ≠ [] := by
  induction s with
  | nil => simp [splitSep]
  | cons c rest ih =>
    simp only [splitSep]
    split
    · simp
    · cases h : splitSep rest with
      | nil => simp
      | cons r rs => simp

theorem encode_cons (r : Bytes) (rs : List Bytes) (h : rs ≠ []) :
    encode (r :: rs) = r ++ sep :: encode rs := by
  cases rs with
  | nil => exact absurd rfl h
  | cons x xs => rfl

/-- Joining the parts produced by splitting gives back the original
buffer, for every buffer. -/
theorem encode_splitSep (s : Bytes) : encode (splitSep s) = s := by
  induction s with
  | nil => simp [splitSep, encode]
  | cons c rest ih =>
    simp only [splitSep]
    split
    · rename_i hc
      rw [encode_cons [] (splitSep rest) (splitSep_ne_nil rest), ih, hc]
      rfl
    · cases h : splitSep rest with
      | nil => exact absurd h (splitSep_ne_nil rest)
      | cons r rs =>
        rw [h] at ih
        cases rs with
        | nil =>
          simp only [encode] at ih ⊢
          rw [ih]
        | cons y ys =>
          rw [encode_cons (c :: r) (y :: ys) (by simp),
              List.cons_append]
          rw [encode_cons r (y :: ys) (by simp)] at ih
          exact congrArg (c :: ·) ih

/-- Splitting a separator-free buffer yields that buffer as the single part. -/
theorem splitSep_of_not_mem (s : Bytes) (h : sep ∉ s) : splitSep s = [s] := by
  induction s with
  | nil => rfl
  | cons c rest ih =>
    simp only [List.mem_cons, not_or] at h
    simp only [splitSep]
    rw [if_neg (by intro hc; exact h.1 hc.symm), ih h.2]

/-- Splitting distributes over a separator that follows a separator-free
prefix. -/
theorem splitSep_append (r : Bytes) (t : Bytes) (h : sep ∉ r) :
    splitSep (r ++ sep :: t) = r :: splitSep t := by
  induction r with
  | nil => simp [splitSep]
  | cons c cs ih =>
    simp only [List.mem_cons, not_or] at h
    simp only [List.cons_append, splitSep]
    rw [if_neg (by intro hc; exact h.1 hc.symm)]
    rw [List.append_eq, ih h.2]

/-- Splitting an encoded sequence recovers the sequence, provided it is
non-empty and no record contains the separator. -/
theorem splitSep_encode (rs : List Bytes) (hne : rs ≠ [])
    (hfree : ∀ r ∈ rs, sep ∉ r) : splitSep (encode rs) = rs := by
  induction rs with
  | nil => exact absurd rfl hne
  | cons r tl ih =>
    cases tl with
    | nil =>
      simp only [encode]
      exact splitSep_of_not_mem r (hfree r (by simp))
    | cons y ys =>
      rw [encode_cons r (y :: ys) (by simp)]
      rw [splitSep_append r _ (hfree r (by simp))]
      rw [ih (by simp) (fun x hx => hfree x (List.mem_cons_of_mem r hx))]

/-- The number of parts returned by splitting is the separator count
plus one. -/
theorem splitSep_length (s : Bytes) :
    (splitSep s).length = s.count sep + 1 := by
  induction s with
  | nil => simp [splitSep]
  | cons c rest ih =>
    simp only [splitSep]
    split
    · rename_i hc
      simp [List.count_cons, hc, ih]
    · rename_i hc
      cases h : splitSep rest with
      | nil => exact absurd h (splitSep_ne_nil rest)
      | cons r rs =>
        rw [h] at ih
        simp only [List.length_cons] at ih ⊢
        simp [List.count_cons, hc, ih]

/-- An encoded sequence is empty exactly when the sequence is empty or
is the single empty record. -/
theorem encode_eq_nil_iff (rs : List Bytes) :
    encode rs = [] ↔ rs = [] ∨ rs = [[]] := by
  cases rs with
  | nil => simp [encode]
  | cons r tl =>
    cases tl with
    | nil =>
      simp only [encode]
      constructor
      · intro h; right; rw [h]
      · rintro (h | h)
        · exact absurd h (by simp)
        · simpa using h
    | cons y ys =>
      rw [encode_cons r (y :: ys) (by simp)]
      simp

/-- Separator count of an encoded separator-free sequence. -/
theorem count_encode (rs : List Bytes) (hne : rs ≠ [])
    (hfree : ∀ r ∈ rs, sep ∉ r) :
    (encode rs).count sep + 1 = rs.length := by
  have h := splitSep_length (encode rs)
  rw [splitSep_encode rs hne hfree] at h
  omega

/-- Failure values of the store, mirroring the `error` values the Go
code builds with `fmt.Errorf`: each carries the data interpolated into
its message. -/
inductive DBError where
  | emptyStore : DBError
  | outOfBounds (number lower upper : Int) : DBError
  | persistError : DBError
  deriving Repr, DecidableEq

/-- The message text of each failure, as formatted by `fmt.Errorf` in
the source (`persistError` wraps an OS error and a path; only its fixed
prefix is rendered here). -/
def errMsg : DBError → String
  | .emptyStore => "no records in database"
  | .outOfBounds n lo hi =>
      "record number (" ++ toString n ++ ") out of bounds [" ++
        toString lo ++ ", " ++ toString hi ++ "]"
  | .persistError => "cannot save linedb backing file"

/-- The `Database` handle together with its backing file: `records` is
the in-memory sequence, `file` the bytes currently on disk, and
`writes` counts the successful whole-file writes performed so far
(instrumentation making "no write happened" observable). -/
structure DB where
  records : List Bytes
  file : Bytes
  writes : Nat
  deriving Repr, DecidableEq

/-- A record paired with its 1-based number (`Rec` in the source). -/
structure Rec where
  Number : Int
  Text : Bytes
  deriving Repr, DecidableEq

/-- `Open` on a file whose read succeeded with contents `buf`. -/
def Open (buf : Bytes) : DB :=
  { records := decode buf, file := buf, writes := 0 }

/-- `Database.Length`. -/
def Length (db : DB) : Int :=
  (db.records.length : Int)

/-- `Database.All`. -/
def All (db : DB) : List Rec :=
  db.records.enum.map (fun p => ⟨(p.1 : Int) + 1, p.2⟩)

/-- `Database.Select`. -/
def Select (db : DB) (filter : Rec → Bool) : List Rec :=
  (db.records.enum.map (fun p => (⟨(p.1 : Int) + 1, p.2⟩ : Rec))).filter filter

/-- `checkEmpty`. -/
def checkEmpty (db : DB) : Option DBError :=
  if db.records.length = 0 then some .emptyStore else none

/-- `checkBounds`. -/
def checkBounds (db : DB) (lower number : Int) : Option DBError :=
  if number < lower ∨ number > Length db then
    some (.outOfBounds number lower (Length db))
  else none

/-- Go slice indexing `xs[i]`: `none` models the run-time panic on an
out-of-range index. -/
def goIndex (xs : List Bytes) (i : Int) : Option Bytes :=
  if i < 0 then none else xs.get? i.toNat

/-- Go slice element assignment `xs[i] = v`: `none` models the panic. -/
def goSet (xs : List Bytes) (i : Int) (v : Bytes) : Option (List Bytes) :=
  if 0 ≤ i ∧ i < (xs.length : Int) then some (xs.set i.toNat v) else none

/-- Go slicing `xs[0:i]`: `none` models the panic when `i` is outside
`[0, len(xs)]`. -/
def goTake (xs : List Bytes) (i : Int) : Option (List Bytes) :=
  if 0 ≤ i ∧ i ≤ (xs.length : Int) then some (xs.take i.toNat) else none

/-- Go slicing `xs[i:]`: `none` models the panic when `i` is outside
`[0, len(xs)]`. -/
def goDrop (xs : List Bytes) (i : Int) : Option (List Bytes) :=
  if 0 ≤ i ∧ i ≤ (xs.length : Int) then some (xs.drop i.toNat) else none

/-- `saveToFile`: writes the joined records over the file.  `wOk` tells
whether the OS write succeeds during this call; on failure the file is
untouched and the wrapped error is returned. -/
def saveToFile (wOk : Bool) (db : DB) (records : List Bytes) :
    Except DBError DB :=
  if wOk then
    .ok { db with file := encode records, writes := db.writes + 1 }
  else .error .persistError

/-- `Database.Record`.  `none` is a panic (never reached, see the
safety theorem); otherwise the result plus the (unchanged) state. -/
def Record (db : DB) (number : Int) : Option (Except DBError Bytes) :=
  match checkEmpty db with
  | some e => some (.error e)
  | none =>
    match checkBounds db 1 number with
    | some e => some (.error e)
    | none =>
      match goIndex db.records (number - 1) with
      | none => none
      | some r => some (.ok r)

/-- `Database.Insert`.  Returns the operation's outcome and the state
of handle and file after the call. -/
def Insert (wOk : Bool) (db : DB) (number : Int) (record : Bytes) :
    Option (Except DBError Unit × DB) :=
  match checkBounds db 0 number with
  | some e => some (.error e, db)
  | none =>
    if db.records.length = 0 ∧ record = [] then
      some (.ok (), db)
    else if number = 0 then
      let newRecords := db.records ++ [record]
      match saveToFile wOk db newRecords with
      | .error e => some (.error e, db)
      | .ok db1 => some (.ok (), { db1 with records := newRecords })
    else
      match goTake db.records (number - 1), goDrop db.records (number - 1) with
      | some pre, some post =>
        let newRecords := pre ++ record :: post
        match saveToFile wOk db newRecords with
        | .error e => some (.error e, db)
        | .ok db1 => some (.ok (), { db1 with records := newRecords })
      | _, _ => none

/-- `Database.Update`: reads the old text, mutates in place, attempts
the write, and on write failure restores the old text. -/
def Update (wOk : Bool) (db : DB) (number : Int) (record : Bytes) :
    Option (Except DBError Bytes × DB) :=
  match Record db number with
  | none => none
  | some (.error e) => some (.error e, db)
  | some (.ok old) =>
    match goSet db.records (number - 1) record with
    | none => none
    | some recs1 =>
      match saveToFile wOk { db with records := recs1 } recs1 with
      | .error e =>
        match goSet recs1 (number - 1) old with
        | none => none
        | some recs2 => some (.error e, { db with records := recs2 })
      | .ok db2 => some (.ok old, db2)

/-- `Database.Delete`: filters out the `number`-th record, attempts the
write, and commits only on success. -/
def Delete (wOk : Bool) (db : DB) (number : Int) :
    Option (Except DBError Bytes × DB) :=
  match Record db number with
  | none => none
  | some (.error e) => some (.error e, db)
  | some (.ok old) =>
    let newRecords :=
      (db.records.enum.filter (fun p => (p.1 : Int) ≠ number - 1)).map Prod.snd
    match saveToFile wOk db newRecords with
    | .error e => some (.error e, db)
    | .ok db1 => some (.ok old, { db1 with records := newRecords })

/-- States reachable through the store's operations: `Open` on any file
contents, followed by any `Insert`, `Update` and `Delete` calls,
successful or not, with any write outcome. -/
inductive Reach : DB → Prop where
  | openFile (buf : Bytes) : Reach (Open buf)
  | insert {db : DB} {wOk : Bool} {n : Int} {t : Bytes}
      {res : Except DBError Unit} {db' : DB} :
      Reach db → Insert wOk db n t = some (res, db') → Reach db'
  | update {db : DB} {wOk : Bool} {n : Int} {t : Bytes}
      {res : Except DBError Bytes} {db' : DB} :
      Reach db → Update wOk db n t = some (res, db') → Reach db'
  | delete {db : DB} {wOk : Bool} {n : Int}
      {res : Except DBError Bytes} {db' : DB} :
      Reach db → Delete wOk db n = some (res, db') → Reach db'

theorem length_ne_zero {l : List Bytes} (h : l ≠ []) : ¬(l.length = 0) := by
  simpa [List.length_eq_zero] using h

/-- Writing back the element already at an index leaves the list unchanged. -/
theorem set_get_self {α : Type} (l : List α) (k : Nat) (a : α)
    (h : l.get? k = some a) : l.set k a = l := by
  induction l generalizing k with
  | nil => simp at h
  | cons x xs ih =>
    cases k with
    | zero =>
      simp only [List.get?] at h
      injection h with h
      rw [h]
      rfl
    | succ k =>
      simp only [List.get?] at h
      simp [List.set, ih k h]

theorem Record_empty (db : DB) (n : Int) (h : db.records = []) :
    Record db n = some (.error .emptyStore) := by
  have h0 : db.records.length = 0 := by rw [h]; rfl
  simp [Record, checkEmpty, h0]

theorem Record_oob (db : DB) (n : Int) (h0 : db.records ≠ [])
    (hb : n < 1 ∨ n > Length db) :
    Record db n = some (.error (.outOfBounds n 1 (Length db))) := by
  unfold Record checkEmpty checkBounds
  rw [if_neg (length_ne_zero h0), if_pos hb]

theorem Record_get (db : DB) (n : Int) (h0 : db.records ≠ [])
    (h1 : 1 ≤ n) (h2 : n ≤ Length db) :
    ∃ r, db.records.get? (n - 1).toNat = some r ∧
      Record db n = some (.ok r) := by
  have hb : ¬(n < 1 ∨ n > Length db) := by omega
  have hk : (n - 1).toNat < db.records.length := by
    unfold Length at h2; omega
  refine ⟨db.records.get ⟨(n - 1).toNat, hk⟩, List.get?_eq_get hk, ?_⟩
  unfold Record checkEmpty checkBounds goIndex
  rw [if_neg (length_ne_zero h0), if_neg hb,
    if_neg (show ¬(n - 1 < 0) by omega), List.get?_eq_get hk]

theorem Record_ok_inv {db : DB} {n : Int} {old : Bytes}
    (h : Record db n = some (.ok old)) :
    db.records.get? (n - 1).toNat = some old ∧ ¬(n - 1 < 0) := by
  unfold Record at h
  split at h
  · simp at h
  · split at h
    · simp at h
    · split at h
      · exact absurd h (by simp)
      · rename_i hidx
        injection h with h
        injection h with h
        unfold goIndex at hidx
        split at hidx
        · exact absurd hidx (by simp)
        · rename_i hneg
          exact ⟨h ▸ hidx, hneg⟩

theorem Record_total (db : DB) (n : Int) : Record db n ≠ none := by
  by_cases h0 : db.records = []
  · rw [Record_empty db n h0]; simp
  · by_cases hb : n < 1 ∨ n > Length db
    · rw [Record_oob db n h0 hb]; simp
    · obtain ⟨r, _, hr⟩ := Record_get db n h0 (by omega) (by omega)
      rw [hr]; simp

theorem Insert_oob (wOk : Bool) (db : DB) (n : Int) (t : Bytes)
    (h : n < 0 ∨ n > Length db) :
    Insert wOk db n t = some (.error (.outOfBounds n 0 (Length db)), db) := by
  unfold Insert checkBounds
  rw [if_pos h]

theorem Insert_noop (wOk : Bool) (db : DB) (n : Int) (t : Bytes)
    (hb : ¬(n < 0 ∨ n > Length db))
    (h : db.records = [] ∧ t = []) :
    Insert wOk db n t = some (.ok (), db) := by
  unfold Insert checkBounds
  rw [if_neg hb, if_pos (by exact ⟨by rw [h.1]; rfl, h.2⟩)]

theorem Insert_append (db : DB) (t : Bytes)
    (h : ¬(db.records = [] ∧ t = [])) :
    Insert true db 0 t = some (.ok (),
      ⟨db.records ++ [t], encode (db.records ++ [t]), db.writes + 1⟩) := by
  unfold Insert checkBounds saveToFile
  have hb : ¬((0 : Int) < 0 ∨ (0 : Int) > Length db) := by
    unfold Length; omega
  rw [if_neg hb, if_neg (by simpa [List.length_eq_zero] using h)]
  rfl

theorem Insert_general (db : DB) (n : Int) (t : Bytes)
    (h1 : 1 ≤ n) (h2 : n ≤ Length db) :
    Insert true db n t = some (.ok (),
      ⟨db.records.take (n - 1).toNat ++ t :: db.records.drop (n - 1).toNat,
       encode (db.records.take (n - 1).toNat ++ t :: db.records.drop (n - 1).toNat),
       db.writes + 1⟩) := by
  have hlen : 1 ≤ db.records.length := by unfold Length at h2; omega
  unfold Insert checkBounds goTake goDrop saveToFile
  rw [if_neg (show ¬(n < 0 ∨ n > Length db) by omega),
    if_neg (show ¬(db.records.length = 0 ∧ t = []) by omega),
    if_neg (show ¬(n = 0) by omega),
    if_pos (show 0 ≤ n - 1 ∧ n - 1 ≤ (db.records.length : Int) by
      unfold Length at h2; omega),
    if_pos (show 0 ≤ n - 1 ∧ n - 1 ≤ (db.records.length : Int) by
      unfold Length at h2; omega)]
  rfl

theorem Insert_append_fail (db : DB) (t : Bytes)
    (h : ¬(db.records = [] ∧ t = [])) :
    Insert false db 0 t = some (.error .persistError, db) := by
  unfold Insert checkBounds
  have hb : ¬((0 : Int) < 0 ∨ (0 : Int) > Length db) := by
    unfold Length; omega
  rw [if_neg hb, if_neg (by simpa [List.length_eq_zero] using h)]
  rfl

theorem Insert_general_fail (db : DB) (n : Int) (t : Bytes)
    (h1 : 1 ≤ n) (h2 : n ≤ Length db) :
    Insert false db n t = some (.error .persistError, db) := by
  have hlen : 1 ≤ db.records.length := by unfold Length at h2; omega
  unfold Insert checkBounds goTake goDrop
  rw [if_neg (show ¬(n < 0 ∨ n > Length db) by omega),
    if_neg (show ¬(db.records.length = 0 ∧ t = []) from
      fun hc => absurd hc.1 (by omega)),
    if_neg (show ¬(n = 0) by omega),
    if_pos (show 0 ≤ n - 1 ∧ n - 1 ≤ (db.records.length : Int) by
      unfold Length at h2; omega),
    if_pos (show 0 ≤ n - 1 ∧ n - 1 ≤ (db.records.length : Int) by
      unfold Length at h2; omega)]
  rfl

theorem Update_of_record_error {db : DB} {n : Int} {e : DBError}
    (wOk : Bool) (t : Bytes) (h : Record db n = some (.error e)) :
    Update wOk db n t = some (.error e, db) := by
  unfold Update
  rw [h]

theorem Delete_of_record_error {db : DB} {n : Int} {e : DBError}
    (wOk : Bool) (h : Record db n = some (.error e)) :
    Delete wOk db n = some (.error e, db) := by
  unfold Delete
  rw [h]

theorem Update_ok (db : DB) (n : Int) (t : Bytes) (h0 : db.records ≠ [])
    (h1 : 1 ≤ n) (h2 : n ≤ Length db) :
    ∃ old, db.records.get? (n - 1).toNat = some old ∧
      Update true db n t = some (.ok old,
        ⟨db.records.set (n - 1).toNat t,
         encode (db.records.set (n - 1).toNat t), db.writes + 1⟩) := by
  obtain ⟨old, hget, hrec⟩ := Record_get db n h0 h1 h2
  refine ⟨old, hget, ?_⟩
  unfold Update goSet
  rw [hrec,
    if_pos (show 0 ≤ n - 1 ∧ n - 1 < (db.records.length : Int) by
      unfold Length at h2
      have := List.get?_eq_some.mp hget
      omega)]
  rfl

theorem Update_fail (db : DB) (n : Int) (t : Bytes) (h0 : db.records ≠ [])
    (h1 : 1 ≤ n) (h2 : n ≤ Length db) :
    Update false db n t = some (.error .persistError, db) := by
  obtain ⟨old, hget, hrec⟩ := Record_get db n h0 h1 h2
  have hk : (n - 1).toNat < db.records.length := (List.get?_eq_some.mp hget).1
  have hb : 0 ≤ n - 1 ∧ n - 1 < (db.records.length : Int) := by
    unfold Length at h2; omega
  unfold Update goSet saveToFile
  rw [hrec]
  simp only [List.length_set, if_pos hb, Bool.false_eq_true, if_false]
  rw [List.set_set, set_get_self db.records (n - 1).toNat old hget]

theorem Delete_ok (db : DB) (n : Int) (h0 : db.records ≠ [])
    (h1 : 1 ≤ n) (h2 : n ≤ Length db) :
    ∃ old, db.records.get? (n - 1).toNat = some old ∧
      Delete true db n = some (.ok old,
        ⟨(db.records.enum.filter (fun p => (p.1 : Int) ≠ n - 1)).map Prod.snd,
         encode ((db.records.enum.filter
           (fun p => (p.1 : Int) ≠ n - 1)).map Prod.snd),
         db.writes + 1⟩) := by
  obtain ⟨old, hget, hrec⟩ := Record_get db n h0 h1 h2
  refine ⟨old, hget, ?_⟩
  unfold Delete
  rw [hrec]
  rfl

theorem Delete_fail (db : DB) (n : Int) (h0 : db.records ≠ [])
    (h1 : 1 ≤ n) (h2 : n ≤ Length db) :
    Delete false db n = some (.error .persistError, db) := by
  obtain ⟨old, hget, hrec⟩ := Record_get db n h0 h1 h2
  unfold Delete
  rw [hrec]
  rfl

theorem Update_total (wOk : Bool) (db : DB) (n : Int) (t : Bytes) :
    Update wOk db n t ≠ none := by
  by_cases h0 : db.records = []
  · rw [Update_of_record_error wOk t (Record_empty db n h0)]; simp
  · by_cases hb : n < 1 ∨ n > Length db
    · rw [Update_of_record_error wOk t (Record_oob db n h0 hb)]; simp
    · cases wOk with
      | true =>
        obtain ⟨old, _, h⟩ := Update_ok db n t h0 (by omega) (by omega)
        rw [h]; simp
      | false =>
        rw [Update_fail db n t h0 (by omega) (by omega)]; simp

theorem Delete_total (wOk : Bool) (db : DB) (n : Int) :
    Delete wOk db n ≠ none := by
  by_cases h0 : db.records = []
  · rw [Delete_of_record_error wOk (Record_empty db n h0)]; simp
  · by_cases hb : n < 1 ∨ n > Length db
    · rw [Delete_of_record_error wOk (Record_oob db n h0 hb)]; simp
    · obtain ⟨old, hget, hrec⟩ := Record_get db n h0 (by omega) (by omega)
      unfold Delete
      rw [hrec]
      cases wOk <;> simp [saveToFile]

theorem Insert_total (wOk : Bool) (db : DB) (n : Int) (t : Bytes) :
    Insert wOk db n t ≠ none := by
  by_cases hb : n < 0 ∨ n > Length db
  · rw [Insert_oob wOk db n t hb]; simp
  · by_cases hno : db.records = [] ∧ t = []
    · rw [Insert_noop wOk db n t hb hno]; simp
    · have hn0 : 0 ≤ n := by omega
      have hnl : n ≤ Length db := by omega
      by_cases hz : n = 0
      · subst hz
        cases wOk with
        | true => rw [Insert_append db t hno]; simp
        | false => rw [Insert_append_fail db t hno]; simp
      · have h1 : 1 ≤ n := by omega
        cases wOk with
        | true => rw [Insert_general db n t h1 hnl]; simp
        | false => rw [Insert_general_fail db n t h1 hnl]; simp

theorem Insert_state {wOk : Bool} {db : DB} {n : Int} {t : Bytes}
    {res : Except DBError Unit} {db' : DB}
    (h : Insert wOk db n t = some (res, db')) :
    db' = db ∨ db'.file = encode db'.records := by
  by_cases hb : n < 0 ∨ n > Length db
  · rw [Insert_oob wOk db n t hb] at h
    simp only [Option.some.injEq, Prod.mk.injEq] at h
    exact Or.inl h.2.symm
  · by_cases hno : db.records = [] ∧ t = []
    · rw [Insert_noop wOk db n t hb hno] at h
      simp only [Option.some.injEq, Prod.mk.injEq] at h
      exact Or.inl h.2.symm
    · by_cases hz : n = 0
      · subst hz
        cases wOk with
        | true =>
          rw [Insert_append db t hno] at h
          simp only [Option.some.injEq, Prod.mk.injEq] at h
          right
          rw [← h.2]
        | false =>
          rw [Insert_append_fail db t hno] at h
          simp only [Option.some.injEq, Prod.mk.injEq] at h
          exact Or.inl h.2.symm
      · have h1 : 1 ≤ n := by omega
        have h2 : n ≤ Length db := by omega
        cases wOk with
        | true =>
          rw [Insert_general db n t h1 h2] at h
          simp only [Option.some.injEq, Prod.mk.injEq] at h
          right
          rw [← h.2]
        | false =>
          rw [Insert_general_fail db n t h1 h2] at h
          simp only [Option.some.injEq, Prod.mk.injEq] at h
          exact Or.inl h.2.symm

theorem Update_state {wOk : Bool} {db : DB} {n : Int} {t : Bytes}
    {res : Except DBError Bytes} {db' : DB}
    (h : Update wOk db n t = some (res, db')) :
    db' = db ∨ db'.file = encode db'.records := by
  by_cases h0 : db.records = []
  · rw [Update_of_record_error wOk t (Record_empty db n h0)] at h
    simp only [Option.some.injEq, Prod.mk.injEq] at h
    exact Or.inl h.2.symm
  · by_cases hb : n < 1 ∨ n > Length db
    · rw [Update_of_record_error wOk t (Record_oob db n h0 hb)] at h
      simp only [Option.some.injEq, Prod.mk.injEq] at h
      exact Or.inl h.2.symm
    · cases wOk with
      | true =>
        obtain ⟨old, _, hu⟩ := Update_ok db n t h0 (by omega) (by omega)
        rw [hu] at h
        simp only [Option.some.injEq, Prod.mk.injEq] at h
        right
        rw [← h.2]
      | false =>
        rw [Update_fail db n t h0 (by omega) (by omega)] at h
        simp only [Option.some.injEq, Prod.mk.injEq] at h
        exact Or.inl h.2.symm

theorem Delete_state {wOk : Bool} {db : DB} {n : Int}
    {res : Except DBError Bytes} {db' : DB}
    (h : Delete wOk db n = some (res, db')) :
    db' = db ∨ db'.file = encode db'.records := by
  by_cases h0 : db.records = []
  · rw [Delete_of_record_error wOk (Record_empty db n h0)] at h
    simp only [Option.some.injEq, Prod.mk.injEq] at h
    exact Or.inl h.2.symm
  · by_cases hb : n < 1 ∨ n > Length db
    · rw [Delete_of_record_error wOk (Record_oob db n h0 hb)] at h
      simp only [Option.some.injEq, Prod.mk.injEq] at h
      exact Or.inl h.2.symm
    · cases wOk with
      | true =>
        obtain ⟨old, _, hd⟩ := Delete_ok db n h0 (by omega) (by omega)
        rw [hd] at h
        simp only [Option.some.injEq, Prod.mk.injEq] at h
        right
        rw [← h.2]
      | false =>
        rw [Delete_fail db n h0 (by omega) (by omega)] at h
        simp only [Option.some.injEq, Prod.mk.injEq] at h
        exact Or.inl h.2.symm

/-- In every reachable state the backing file holds exactly the
encoding of the in-memory sequence. -/
theorem reach_consistent {db : DB} (h : Reach db) :
    db.file = encode db.records := by
  induction h with
  | openFile buf =>
    show buf = encode (decode buf)
    by_cases hb : buf = []
    · rw [hb]
      rfl
    · unfold decode
      rw [if_neg hb, encode_splitSep]
  | insert _ hstep ih =>
    rcases Insert_state hstep with h1 | h1
    · rw [h1]; exact ih
    · exact h1
  | update _ hstep ih =>
    rcases Update_state hstep with h1 | h1
    · rw [h1]; exact ih
    · exact h1
  | delete _ hstep ih =>
    rcases Delete_state hstep with h1 | h1
    · rw [h1]; exact ih
    · exact h1

theorem Record_of_get {db : DB} {n : Int} {t : Bytes}
    (h0 : db.records ≠ []) (h1 : 1 ≤ n) (h2 : n ≤ Length db)
    (hget : db.records.get? (n - 1).toNat = some t) :
    Record db n = some (.ok t) := by
  obtain ⟨r, hr, hrec⟩ := Record_get db n h0 h1 h2
  rw [hget] at hr
  injection hr with hr
  rw [hr]
  exact hrec

/-- C1 (amended): for every reachable record sequence in which no
record contains the separator character and which is not the single
empty-record sequence, decode of encode reproduces the sequence; the
zero-record sequence encodes to zero bytes and decodes back to zero
records, not to one empty-string record. -/
theorem C1_codec_roundtrip (db : DB) (_reach : Reach db)
    (hfree : ∀ r ∈ db.records, sep ∉ r) (hone : db.records ≠ [[]]) :
    decode (encode db.records) = db.records ∧
    encode ([] : List Bytes) = [] ∧ decode [] = [] := by
  refine ⟨?_, rfl, rfl⟩
  by_cases hnil : db.records = []
  · rw [hnil]
    rfl
  · have hne : encode db.records ≠ [] := by
      rw [Ne, encode_eq_nil_iff]
      rintro (h1 | h1)
      · exact hnil h1
      · exact hone h1
    unfold decode
    rw [if_neg hne, splitSep_encode db.records hnil hfree]

theorem C1_codec_roundtrip_witness :
    decode (encode (Open ['a']).records) = (Open ['a']).records ∧
    encode ([] : List Bytes) = [] ∧ decode [] = [] :=
  C1_codec_roundtrip (Open ['a']) (Reach.openFile ['a']) (by decide) (by decide)

/-- C1 counterexample: the state reached by opening a one-record file
and updating that record to the empty text is reachable through
successful operations, yet its record sequence (one empty record) does
not survive an encode/decode round trip — it encodes to zero bytes,
which decode back to zero records. -/
theorem C1_codec_roundtrip_cex :
    Reach (⟨[[]], [], 1⟩ : DB) ∧
    decode (encode (⟨[[]], [], 1⟩ : DB).records) ≠
      (⟨[[]], [], 1⟩ : DB).records :=
  ⟨Reach.update (Reach.openFile ['a'])
    (show Update true (Open ['a']) 1 [] =
        some (.ok ['a'], ⟨[[]], [], 1⟩) by rfl),
   by decide⟩

/-- C2 (amended): in every reachable state the in-memory sequence
encodes to exactly the bytes of the backing file; when additionally no
record contains the separator and the state is not the single
empty-record state, a zero-length backing file corresponds to zero
records and any non-empty file to `k+1` records, `k` the number of
separators in the file. -/
theorem C2_store_file_consistency (db : DB) (h : Reach db) :
    db.file = encode db.records ∧
    ((∀ r ∈ db.records, sep ∉ r) → db.records ≠ [[]] →
      ((db.file = [] ↔ db.records = []) ∧
       (db.file ≠ [] → db.records.length = db.file.count sep + 1))) := by
  have hfile := reach_consistent h
  refine ⟨hfile, fun hfree hone => ⟨?_, ?_⟩⟩
  · constructor
    · intro hf
      rw [hfile] at hf
      rcases (encode_eq_nil_iff db.records).mp hf with h1 | h1
      · exact h1
      · exact absurd h1 hone
    · intro hr
      rw [hfile, hr]
      rfl
  · intro hf
    have hnil : db.records ≠ [] := by
      intro hr
      apply hf
      rw [hfile, hr]
      rfl
    rw [hfile]
    have := count_encode db.records hnil hfree
    omega

theorem C2_store_file_consistency_witness :
    (Open ['a']).file = encode (Open ['a']).records ∧
    ((Open ['a']).file = [] ↔ (Open ['a']).records = []) ∧
    (Open ['a']).records.length = (Open ['a']).file.count sep + 1 :=
  ⟨(C2_store_file_consistency (Open ['a']) (Reach.openFile ['a'])).1,
   ((C2_store_file_consistency (Open ['a'])
      (Reach.openFile ['a'])).2 (by decide) (by decide)).1,
   ((C2_store_file_consistency (Open ['a'])
      (Reach.openFile ['a'])).2 (by decide) (by decide)).2 (by decide)⟩

/-- C2 counterexample: a reachable state (open a one-record file, update
the record to the empty text) whose backing file is zero-length while the
store holds one record, violating the claimed zero-length/zero-records
correspondence. -/
theorem C2_store_file_consistency_cex :
    Reach (⟨[[]], [], 1⟩ : DB) ∧ (⟨[[]], [], 1⟩ : DB).file = [] ∧
    (⟨[[]], [], 1⟩ : DB).records ≠ [] :=
  ⟨Reach.update (Reach.openFile ['a'])
    (show Update true (Open ['a']) 1 [] =
        some (.ok ['a'], ⟨[[]], [], 1⟩) by rfl),
   rfl, by decide⟩

/-- C3: whenever the whole-file write fails (`wOk = false`) during an
Insert, Update or Delete that actually attempts a write (bounds and
emptiness checks passed, and for Insert the empty-store/empty-text
no-op is excluded), the operation reports the persistence error and
returns with the in-memory sequence, the file bytes and the write count
exactly as before the call. -/
theorem C3_failure_atomicity (db : DB) (n : Int) (t : Bytes) :
    (0 ≤ n → n ≤ Length db → ¬(db.records = [] ∧ t = []) →
      Insert false db n t = some (.error .persistError, db)) ∧
    (db.records ≠ [] → 1 ≤ n → n ≤ Length db →
      Update false db n t = some (.error .persistError, db)) ∧
    (db.records ≠ [] → 1 ≤ n → n ≤ Length db →
      Delete false db n = some (.error .persistError, db)) := by
  refine ⟨?_, ?_, ?_⟩
  · intro h0 h2 hno
    by_cases hz : n = 0
    · subst hz
      exact Insert_append_fail db t hno
    · exact Insert_general_fail db n t (by omega) h2
  · exact fun h0 h1 h2 => Update_fail db n t h0 h1 h2
  · exact fun h0 h1 h2 => Delete_fail db n h0 h1 h2

theorem C3_failure_atomicity_witness :
    Insert false ⟨[['a']], ['a'], 0⟩ 1 ['b'] =
      some (.error .persistError, ⟨[['a']], ['a'], 0⟩) ∧
    Update false ⟨[['a']], ['a'], 0⟩ 1 ['b'] =
      some (.error .persistError, ⟨[['a']], ['a'], 0⟩) ∧
    Delete false ⟨[['a']], ['a'], 0⟩ 1 =
      some (.error .persistError, ⟨[['a']], ['a'], 0⟩) :=
  ⟨(C3_failure_atomicity ⟨[['a']], ['a'], 0⟩ 1 ['b']).1
      (by decide) (by decide) (by decide),
   (C3_failure_atomicity ⟨[['a']], ['a'], 0⟩ 1 ['b']).2.1
      (by decide) (by decide) (by decide),
   (C3_failure_atomicity ⟨[['a']], ['a'], 0⟩ 1 ['b']).2.2
      (by decide) (by decide) (by decide)⟩

/-- C6: `Record` reports `EmptyStoreError` on a zero-record store for
any number (emptiness is checked before bounds); on a non-empty store
it reports `OutOfBoundsError` carrying the number, 1 and `Length()`
exactly when the number is outside `[1, Length()]`, and otherwise
returns the number-th record (1-indexed); the out-of-bounds message
renders all three integers verbatim. -/
theorem C6_record_error_rule (db : DB) (n : Int) :
    (db.records = [] → Record db n = some (.error .emptyStore)) ∧
    (db.records ≠ [] →
      (Record db n = some (.error (.outOfBounds n 1 (Length db))) ↔
        n < 1 ∨ n > Length db)) ∧
    (db.records ≠ [] → 1 ≤ n → n ≤ Length db →
      ∃ r, db.records.get? (n - 1).toNat = some r ∧
        Record db n = some (.ok r)) ∧
    errMsg (.outOfBounds n 1 (Length db)) =
      "record number (" ++ toString n ++ ") out of bounds [" ++
        toString (1 : Int) ++ ", " ++ toString (Length db) ++ "]" := by
  refine ⟨fun h0 => Record_empty db n h0, fun h0 => ⟨?_, ?_⟩,
    fun h0 h1 h2 => Record_get db n h0 h1 h2, rfl⟩
  · intro heq
    by_contra hb
    obtain ⟨r, _, hrec⟩ := Record_get db n h0 (by omega) (by omega)
    rw [hrec] at heq
    simp at heq
  · exact fun hb => Record_oob db n h0 hb

theorem C6_record_error_rule_witness :
    Record ⟨[], [], 0⟩ 5 = some (.error .emptyStore) ∧
    Record ⟨[['a']], ['a'], 0⟩ 2 =
      some (.error (.outOfBounds 2 1 (Length ⟨[['a']], ['a'], 0⟩))) ∧
    (∃ r, (⟨[['a']], ['a'], 0⟩ : DB).records.get? ((1 : Int) - 1).toNat =
        some r ∧ Record ⟨[['a']], ['a'], 0⟩ 1 = some (.ok r)) :=
  ⟨(C6_record_error_rule ⟨[], [], 0⟩ 5).1 rfl,
   ((C6_record_error_rule ⟨[['a']], ['a'], 0⟩ 2).2.1 (by decide)).mpr
      (by decide),
   (C6_record_error_rule ⟨[['a']], ['a'], 0⟩ 1).2.2.1
      (by decide) (by decide) (by decide)⟩

/-- C7: decoding zero bytes yields zero records, and decoding any
non-empty input splits on the separator, yielding exactly
`count(separator) + 1` records; accordingly `Open` on a zero-byte file
has length 0 and `Open` on a non-empty file has length `k + 1`, `k` the
separator count. -/
theorem C7_decode_rule (buf : Bytes) :
    (buf = [] → decode buf = [] ∧ Length (Open buf) = 0) ∧
    (buf ≠ [] → decode buf = splitSep buf ∧
      (decode buf).length = buf.count sep + 1 ∧
      Length (Open buf) = (buf.count sep : Int) + 1) := by
  constructor
  · intro h
    subst h
    exact ⟨rfl, rfl⟩
  · intro h
    have hd : decode buf = splitSep buf := by
      unfold decode
      rw [if_neg h]
    refine ⟨hd, ?_, ?_⟩
    · rw [hd, splitSep_length]
    · show ((Open buf).records.length : Int) = _
      unfold Open
      show (((decode buf).length : Nat) : Int) = _
      rw [hd, splitSep_length]
      push_cast
      ring

theorem C7_decode_rule_witness :
    (decode [] = [] ∧ Length (Open []) = 0) ∧
    (decode ['a', '\n', '\n'] = splitSep ['a', '\n', '\n'] ∧
     (decode ['a', '\n', '\n']).length = ['a', '\n', '\n'].count sep + 1 ∧
     Length (Open ['a', '\n', '\n']) =
       (['a', '\n', '\n'].count sep : Int) + 1) :=
  ⟨(C7_decode_rule []).1 rfl, (C7_decode_rule ['a', '\n', '\n']).2 (by decide)⟩

/-- C8: on a reachable store with zero records, inserting the empty
text at position 0 succeeds as a no-op — the state after the call is
the state before it, so the length stays 0 and the backing file stays
zero-length — whatever the write outcome would be. -/
theorem C8_empty_empty_noop (db : DB) (wOk : Bool)
    (hreach : Reach db) (h : db.records = []) :
    Insert wOk db 0 [] = some (.ok (), db) ∧
    Length db = 0 ∧ db.file = [] := by
  have hf : db.file = [] := by
    rw [reach_consistent hreach, h]
    rfl
  refine ⟨?_, ?_, hf⟩
  · refine Insert_noop wOk db 0 [] ?_ ⟨h, rfl⟩
    unfold Length
    omega
  · unfold Length
    rw [h]
    rfl

theorem C8_empty_empty_noop_witness :
    Insert false (Open []) 0 [] = some (.ok (), Open []) ∧
    Length (Open []) = 0 ∧ (Open []).file = [] :=
  C8_empty_empty_noop (Open []) false (Reach.openFile []) rfl

/-- C9: the store never panics — for every state and all arguments the
modelled operations return a value (`none` encodes a Go run-time panic
and is never produced): every slice access is guarded by the preceding
emptiness and bounds checks, and every failure is a returned error
value.  `Length`, `All` and `Select` are embedded as plain total
functions, so their totality is immediate. -/
theorem C9_no_panic (db : DB) (wOk : Bool) (n : Int) (t : Bytes) :
    Record db n ≠ none ∧ Insert wOk db n t ≠ none ∧
    Update wOk db n t ≠ none ∧ Delete wOk db n ≠ none :=
  ⟨Record_total db n, Insert_total wOk db n t,
   Update_total wOk db n t, Delete_total wOk db n⟩

/-- C10: on a store with zero records, `Insert(0, "")` returns success
without attempting any write: the resulting state is the input state
itself — same file bytes and same successful-write count — for either
write-outcome disposition, so the call cannot fail with a persistence
error even when the file is unwritable. -/
theorem C10_noop_no_write (db : DB) (wOk : Bool) (h : db.records = []) :
    Insert wOk db 0 [] = some (.ok (), db) := by
  refine Insert_noop wOk db 0 [] ?_ ⟨h, rfl⟩
  unfold Length
  omega

theorem C10_noop_no_write_witness :
    Insert false ⟨[], ['x'], 3⟩ 0 [] = some (.ok (), ⟨[], ['x'], 3⟩) :=
  C10_noop_no_write ⟨[], ['x'], 3⟩ false rfl

/-- Positional description of the list built by the general case of
`Insert`: length grows by one, position `k` (0-based) holds the new
text, earlier positions are unchanged and later positions are the old
ones shifted by one. -/
theorem insert_general_records (l : List Bytes) (k : Nat) (t : Bytes)
    (hk : k ≤ l.length) :
    (l.take k ++ t :: l.drop k).length = l.length + 1 ∧
    (l.take k ++ t :: l.drop k).get? k = some t ∧
    (∀ i : Nat, i < k → (l.take k ++ t :: l.drop k).get? i = l.get? i) ∧
    (∀ i : Nat, k ≤ i →
      (l.take k ++ t :: l.drop k).get? (i + 1) = l.get? i) := by
  have hlt : (l.take k).length = k := by
    rw [List.length_take]
    omega
  refine ⟨?_, ?_, ?_, ?_⟩
  · rw [List.length_append, List.length_cons, List.length_drop, hlt]
    omega
  · rw [List.get?_append_right (by omega), hlt, Nat.sub_self]
    rfl
  · intro i hi
    rw [List.get?_append (by omega)]
    exact List.get?_take hi
  · intro i hi
    rw [List.get?_append_right (by omega), hlt,
      (by omega : i + 1 - k = (i - k) + 1)]
    show (l.drop k).get? (i - k) = l.get? i
    rw [List.get?_drop]
    congr 1
    omega

/-- C4 (amended): after a successful `Insert(number, text)` with a valid
number, excluding the empty-store empty-text no-op, reading the record
at the inserted position — position `number` when `number ≥ 1`, position
`Length()+1` as of before the insert when `number = 0` — returns the
inserted text. -/
theorem C4_insert_then_record (db : DB) (n : Int) (t : Bytes)
    (h0 : 0 ≤ n) (h2 : n ≤ Length db) (hno : ¬(db.records = [] ∧ t = [])) :
    ∃ db', Insert true db n t = some (.ok (), db') ∧
      Record db' (if n = 0 then Length db + 1 else n) = some (.ok t) := by
  by_cases hz : n = 0
  · subst hz
    refine ⟨_, Insert_append db t hno, ?_⟩
    rw [if_pos rfl]
    have hne2 : db.records ++ [t] ≠ ([] : List Bytes) := by simp
    have hb1 : (1 : Int) ≤ Length db + 1 := by
      unfold Length
      omega
    have hb2 : Length db + 1 ≤
        Length (⟨db.records ++ [t], encode (db.records ++ [t]),
          db.writes + 1⟩ : DB) := by
      show Length db + 1 ≤ ((db.records ++ [t]).length : Int)
      unfold Length
      simp only [List.length_append, List.length_cons, List.length_nil]
      push_cast
      omega
    have hget2 : (db.records ++ [t]).get? (Length db + 1 - 1).toNat =
        some t := by
      rw [(by unfold Length; omega :
        (Length db + 1 - 1).toNat = db.records.length)]
      exact List.get?_concat_length db.records t
    exact Record_of_get hne2 hb1 hb2 hget2
  · have h1 : 1 ≤ n := by omega
    refine ⟨_, Insert_general db n t h1 h2, ?_⟩
    rw [if_neg hz]
    have hkle : (n - 1).toNat ≤ db.records.length := by
      unfold Length at h2
      omega
    obtain ⟨hlen, hmid, _, _⟩ :=
      insert_general_records db.records (n - 1).toNat t hkle
    have hne2 : db.records.take (n - 1).toNat ++
        t :: db.records.drop (n - 1).toNat ≠ [] := by simp
    have hb2 : n ≤ Length (⟨db.records.take (n - 1).toNat ++
        t :: db.records.drop (n - 1).toNat,
        encode (db.records.take (n - 1).toNat ++
          t :: db.records.drop (n - 1).toNat), db.writes + 1⟩ : DB) := by
      show n ≤ ((db.records.take (n - 1).toNat ++
        t :: db.records.drop (n - 1).toNat).length : Int)
      rw [hlen]
      unfold Length at h2
      push_cast
      omega
    exact Record_of_get hne2 h1 hb2 hmid

theorem C4_insert_then_record_witness :
    ∃ db', Insert true ⟨[['a']], ['a'], 0⟩ 1 ['b'] = some (.ok (), db') ∧
      Record db' (if (1 : Int) = 0 then Length ⟨[['a']], ['a'], 0⟩ + 1 else 1) =
        some (.ok ['b']) :=
  C4_insert_then_record ⟨[['a']], ['a'], 0⟩ 1 ['b']
    (by decide) (by decide) (by decide)

/-- C4 counterexample: on the empty store, `Insert(0, "")` succeeds but
creates no record — the state is unchanged — so reading the "inserted"
position `Length()+1 = 1` fails with the empty-store error instead of
returning the inserted (empty) text. -/
theorem C4_insert_then_record_cex :
    Insert true (⟨[], [], 0⟩ : DB) 0 [] = some (.ok (), ⟨[], [], 0⟩) ∧
    Record (⟨[], [], 0⟩ : DB) (Length (⟨[], [], 0⟩ : DB) + 1) =
      some (.error .emptyStore) ∧
    Record (⟨[], [], 0⟩ : DB) (Length (⟨[], [], 0⟩ : DB) + 1) ≠
      some (.ok ([] : Bytes)) :=
  ⟨by rfl, by rfl, by simp [Record, checkEmpty]⟩

/-- C5 (amended): `Insert(number, text)` fails with `OutOfBoundsError`
carrying the number, lower bound 0 and `Length()` exactly when
`number < 0` or `number > Length()`; a successful `Insert(0, text)`
appends the record after the current last record except in the
empty-store empty-text case, where it is a no-op creating no record;
and a successful `Insert(number, text)` with `1 ≤ number ≤ Length()`
makes the text the `number`-th record, leaves earlier records unchanged
and shifts the records at and after that position one position later. -/
theorem C5_insert_semantics (wOk : Bool) (db : DB) (n : Int) (t : Bytes) :
    (Insert wOk db n t = some (.error (.outOfBounds n 0 (Length db)), db) ↔
      n < 0 ∨ n > Length db) ∧
    (n = 0 → ¬(db.records = [] ∧ t = []) →
      ∃ db', Insert true db 0 t = some (.ok (), db') ∧
        db'.records = db.records ++ [t]) ∧
    (1 ≤ n → n ≤ Length db →
      ∃ db', Insert true db n t = some (.ok (), db') ∧
        db'.records.length = db.records.length + 1 ∧
        db'.records.get? (n - 1).toNat = some t ∧
        (∀ i : Nat, (i : Int) < n - 1 →
          db'.records.get? i = db.records.get? i) ∧
        (∀ i : Nat, n - 1 ≤ (i : Int) →
          db'.records.get? (i + 1) = db.records.get? i)) := by
  refine ⟨⟨?_, fun hb => Insert_oob wOk db n t hb⟩, ?_, ?_⟩
  · intro heq
    by_contra hb
    by_cases hno : db.records = [] ∧ t = []
    · rw [Insert_noop wOk db n t hb hno] at heq
      simp at heq
    · by_cases hz : n = 0
      · subst hz
        cases wOk with
        | true =>
          rw [Insert_append db t hno] at heq
          simp at heq
        | false =>
          rw [Insert_append_fail db t hno] at heq
          simp at heq
      · have h1 : 1 ≤ n := by omega
        have h2 : n ≤ Length db := by omega
        cases wOk with
        | true =>
          rw [Insert_general db n t h1 h2] at heq
          simp at heq
        | false =>
          rw [Insert_general_fail db n t h1 h2] at heq
          simp at heq
  · intro hz hno
    exact ⟨_, Insert_append db t hno, rfl⟩
  · intro h1 h2
    refine ⟨_, Insert_general db n t h1 h2, ?_⟩
    have hkle : (n - 1).toNat ≤ db.records.length := by
      unfold Length at h2
      omega
    obtain ⟨hlen, hmid, hpre, hpost⟩ :=
      insert_general_records db.records (n - 1).toNat t hkle
    exact ⟨hlen, hmid,
      fun i hi => hpre i (by omega),
      fun i hi => hpost i (by omega)⟩

theorem C5_insert_semantics_witness :
    (Insert true ⟨[['a']], ['a'], 0⟩ (-2) ['b'] =
       some (.error (.outOfBounds (-2) 0 (Length ⟨[['a']], ['a'], 0⟩)),
         ⟨[['a']], ['a'], 0⟩) ↔
     (-2 : Int) < 0 ∨ (-2 : Int) > Length ⟨[['a']], ['a'], 0⟩) ∧
    (∃ db', Insert true ⟨[['a']], ['a'], 0⟩ 0 ['b'] = some (.ok (), db') ∧
       db'.records = (⟨[['a']], ['a'], 0⟩ : DB).records ++ [['b']]) ∧
    (∃ db', Insert true ⟨[['a']], ['a'], 0⟩ 1 ['b'] = some (.ok (), db') ∧
       db'.records.length = (⟨[['a']], ['a'], 0⟩ : DB).records.length + 1 ∧
       db'.records.get? ((1 : Int) - 1).toNat = some ['b'] ∧
       (∀ i : Nat, (i : Int) < (1 : Int) - 1 →
         db'.records.get? i = (⟨[['a']], ['a'], 0⟩ : DB).records.get? i) ∧
       (∀ i : Nat, (1 : Int) - 1 ≤ (i : Int) →
         db'.records.get? (i + 1) =
           (⟨[['a']], ['a'], 0⟩ : DB).records.get? i)) :=
  ⟨(C5_insert_semantics true ⟨[['a']], ['a'], 0⟩ (-2) ['b']).1,
   (C5_insert_semantics true ⟨[['a']], ['a'], 0⟩ 0 ['b']).2.1
      rfl (by decide),
   (C5_insert_semantics true ⟨[['a']], ['a'], 0⟩ 1 ['b']).2.2
      (by decide) (by decide)⟩

/-- C5 counterexample: on the empty store, `Insert(0, "")` succeeds yet
does not append the empty record after the current last record — the
store is left with zero records, not with the one-record sequence the
claim's append clause demands. -/
theorem C5_insert_semantics_cex :
    Insert true (⟨[], [], 0⟩ : DB) 0 [] = some (.ok (), ⟨[], [], 0⟩) ∧
    (⟨[], [], 0⟩ : DB).records ≠ (⟨[], [], 0⟩ : DB).records ++ [[]] :=
  ⟨by rfl, by decide⟩
